import Mathlib

/-!
A shallow embedding of `kyriba_cli.py`: the fixed-width codec
(`FixedWidthFile.parse_header/parse_transaction/parse_footer/format_*`,
`read_file`), and the validator/editor operations of `FixedWidthCLI`
(`get_field_value`, `change_field_value`, `add_transaction`,
`validate_file_structure`).

Modelling conventions:
* a Python `str` is a `List Char` (`Str` below); slicing, `strip`,
  `zfill`, `ljust` are modelled by explicit list functions;
* Python `float` values are modelled as exact rationals (the data model
  treats amounts as fixed-point decimal values); `int(x)` on a number is
  truncation toward zero;
* a namedtuple field can hold a value of any of the types that actually
  flow through the program (`str`, `int`, `float`), so record fields have
  the dynamic type `Value`;
* a function that can raise an uncaught Python exception is modelled as
  returning `Option`, with `none` standing for the raised exception;
* the editor methods re-read the store first and unconditionally call
  `write_file`; they are modelled as functions from the decoded record
  sequence to `Option (List Record)`, where `some l` means `write_file(l)`
  is invoked with `l` and `none` would mean the operation aborts without
  starting a write. The write itself is modelled by `write_file`: it opens
  the store for truncating writing before encoding any record, so its
  `none` (an exception raised while encoding some record) leaves the store
  truncated — `some l` from an editor does not by itself mean the full
  sequence was persisted;
* numeric reasoning mostly uses the exact rationals of the fixed-point
  data model; where the divergence between the interpreter's binary64
  doubles and the exact values is itself the property at issue, the
  rounding of a double operation is modelled explicitly by `fl53`.
-/

abbrev Str := List Char

/-- The character list of a Lean string literal. -/
def chars (s : String) : Str := s.data

/-- Python `line[a:b]` (0-indexed, half-open, clamping). -/
def pySlice (a b : Nat) (l : Str) : Str := (l.drop a).take (b - a)

/-- Python `s.strip()`: remove leading and trailing whitespace. -/
def strip (l : Str) : Str :=
  ((l.dropWhile Char.isWhitespace).reverse.dropWhile Char.isWhitespace).reverse

/-- Python `s.isdigit()` restricted to ASCII decimal digits, except that
`allDigits [] = true` (every use below also checks nonemptiness). -/
def allDigits (l : Str) : Bool := l.all Char.isDigit

/-- Python `s.zfill(w)`: left-pad with `'0'` up to width `w`, keeping a
leading sign character in front of the padding. -/
def zfill (w : Nat) (l : Str) : Str :=
  match l with
  | [] => List.replicate w '0'
  | c :: cs =>
    if c = '-' ∨ c = '+' then
      c :: (List.replicate (w - (c :: cs).length) '0' ++ cs)
    else
      List.replicate (w - (c :: cs).length) '0' ++ (c :: cs)

/-- Python `s.ljust(w)`: right-pad with spaces up to width `w`. -/
def ljust (w : Nat) (l : Str) : Str := l ++ List.replicate (w - l.length) ' '

/-- The decimal digit character for `d < 10` (used by `str()` of a number). -/
def digitChar : Nat → Char
  | 0 => '0' | 1 => '1' | 2 => '2' | 3 => '3' | 4 => '4'
  | 5 => '5' | 6 => '6' | 7 => '7' | 8 => '8' | _ => '9'

/-- Little-endian digit characters of `n`, with explicit fuel so that the
recursion is structural; `natToCharsAux n n` lists all digits of `n > 0`. -/
def natToCharsAux : Nat → Nat → List Char
  | 0, _ => []
  | fuel + 1, n => if n = 0 then [] else digitChar (n % 10) :: natToCharsAux fuel (n / 10)

/-- Python `str(n)` for a non-negative integer `n`. -/
def natToChars (n : Nat) : Str :=
  if n = 0 then ['0'] else (natToCharsAux n n).reverse

/-- Python `str(i)` for an `int`. -/
def intToChars (i : Int) : Str :=
  if i < 0 then '-' :: natToChars i.natAbs else natToChars i.toNat

/-- Numeric value of a big-endian digit string (leading zeros allowed). -/
def charsToNat (l : Str) : Nat := l.foldl (fun a c => 10 * a + (c.toNat - 48)) 0

/-- Python `int(s)` on an already-stripped string: optional sign followed by
a nonempty run of decimal digits; `none` models the raised `ValueError`. -/
def parseIntChars (s : Str) : Option Int :=
  match s with
  | [] => none
  | c :: cs =>
    if c = '-' then
      if cs ≠ [] ∧ allDigits cs then some (-(charsToNat cs : Int)) else none
    else if c = '+' then
      if cs ≠ [] ∧ allDigits cs then some ((charsToNat cs : Int)) else none
    else
      if allDigits (c :: cs) then some ((charsToNat (c :: cs) : Int)) else none

/-- Python `float(s)` on an unsigned decimal literal `digits[.digits]`
(exponent / `inf` / `nan` forms are not modelled; no line of this file
format produces them); `none` models the raised `ValueError`. -/
def parseUnsignedDec (s : Str) : Option ℚ :=
  let ip := s.takeWhile (· ≠ '.')
  match s.dropWhile (· ≠ '.') with
  | [] => if ip ≠ [] ∧ allDigits ip then some ((charsToNat ip : ℚ)) else none
  | _ :: frac =>
    if allDigits ip ∧ allDigits frac ∧ (ip ≠ [] ∨ frac ≠ []) then
      some ((charsToNat ip : ℚ) + (charsToNat frac : ℚ) / 10 ^ frac.length)
    else none

/-- Python `float(s)` including an optional sign. -/
def parseFloatChars (s : Str) : Option ℚ :=
  match s with
  | '-' :: r => (parseUnsignedDec r).map (fun q => -q)
  | '+' :: r => parseUnsignedDec r
  | _ => parseUnsignedDec s

/-- Python `int(q)` on a number: truncation toward zero. -/
def qtrunc (q : ℚ) : Int := q.num.tdiv q.den

/-- Mathematical floor of a rational. -/
def qfloor (q : ℚ) : Int := q.num.fdiv q.den

/-- Round a rational to the nearest integer, ties to the even integer
(Python's `round` on exact values). -/
def halfEvenZ (x : ℚ) : Int :=
  let n := qfloor x
  let f := x - (n : ℚ)
  if f < 1 / 2 then n
  else if (1 : ℚ) / 2 < f then n + 1
  else if n % 2 = 0 then n else n + 1

/-- Python `round(x, 2)` on exact values: round to 2 decimal fraction
digits, ties to even. -/
def round2 (q : ℚ) : ℚ := (halfEvenZ (q * 100) : ℚ) / 100

/-- A Python value that can sit in a record field: a `str`, an `int`, or a
`float` (floats modelled as exact rationals). -/
inductive Value where
  | vstr (s : Str)
  | vint (n : Int)
  | vrat (q : ℚ)
deriving DecidableEq

/-- Python `Header = namedtuple("Header", ["field_id", "name", "surname",
"patronymic", "address"])`. -/
structure Header where
  field_id : Value
  name : Value
  surname : Value
  patronymic : Value
  address : Value
deriving DecidableEq

/-- Python `Transaction = namedtuple("Transaction", ["field_id", "counter",
"amount", "currency"])`. -/
structure Transaction where
  field_id : Value
  counter : Value
  amount : Value
  currency : Value
deriving DecidableEq

/-- Python `Footer = namedtuple("Footer", ["field_id", "total_counter",
"control_sum"])`. -/
structure Footer where
  field_id : Value
  total_counter : Value
  control_sum : Value
deriving DecidableEq

/-- A decoded record: one of the three namedtuple kinds. -/
inductive Record where
  | header (h : Header)
  | transaction (t : Transaction)
  | footer (f : Footer)
deriving DecidableEq

/-- The record-kind selector passed to the editor operations (the Python
class object used with `isinstance`). -/
inductive RecKind where
  | header
  | transaction
  | footer
deriving DecidableEq

def kindOf : Record → RecKind
  | .header _ => .header
  | .transaction _ => .transaction
  | .footer _ => .footer

def isHeaderR (r : Record) : Bool := kindOf r = RecKind.header
def isTransactionR (r : Record) : Bool := kindOf r = RecKind.transaction
def isFooterR (r : Record) : Bool := kindOf r = RecKind.footer

def footerOf : Record → Option Footer
  | .footer f => some f
  | _ => none

def HEADER_FIELD_ID : Str := chars "01"
def TRANSACTION_FIELD_ID : Str := chars "02"
def FOOTER_FIELD_ID : Str := chars "03"
def LINE_LENGTH : Nat := 120

/-- The allowed currency codes, `CURRENCY_VALUES` in the source. -/
def CURRENCY_VALUES : List Str :=
  [chars "USD", chars "EUR", chars "GBP", chars "PLN", chars "AZN", chars "TRL"]

/-- Source `FixedWidthFile.parse_header`: slice the four fixed text zones and
strip surrounding whitespace; no content validation. -/
def parse_header (line : Str) : Header :=
  { field_id := .vstr (pySlice 0 2 line)
  , name := .vstr (strip (pySlice 2 30 line))
  , surname := .vstr (strip (pySlice 30 60 line))
  , patronymic := .vstr (strip (pySlice 60 90 line))
  , address := .vstr (strip (pySlice 90 120 line)) }

/-- Source `FixedWidthFile.parse_transaction`: slice counter/amount/currency; the
amount field must be exactly 12 decimal digits, the counter must parse as
an integer, the currency must be in `CURRENCY_VALUES`; on any failure the
line produces no record (`none`). On success the 12-digit magnitude is
divided by 100. -/
def parse_transaction (line : Str) : Option Transaction :=
  let counter_str := strip (pySlice 2 8 line)
  let amount_str := strip (pySlice 8 20 line)
  let currency := strip (pySlice 20 23 line)
  if ¬(amount_str.length = 12 ∧ allDigits amount_str) then none
  else
    match parseIntChars counter_str with
    | none => none
    | some counter =>
      if currency ∈ CURRENCY_VALUES then
        some
          { field_id := .vstr TRANSACTION_FIELD_ID
          , counter := .vint counter
          , amount := .vrat ((charsToNat amount_str : ℚ) / 100)
          , currency := .vstr currency }
      else none

/-- Source `FixedWidthFile.parse_footer`: unguarded `int(...)` and `float(...)`
of the two numeric zones; `none` models the uncaught `ValueError`. -/
def parse_footer (line : Str) : Option Footer :=
  (parseIntChars (strip (pySlice 2 8 line))).bind fun total_counter =>
  (parseFloatChars (strip (pySlice 8 20 line))).bind fun control_sum =>
  some
    { field_id := .vstr FOOTER_FIELD_ID
    , total_counter := .vint total_counter
    , control_sum := .vrat (control_sum / 100) }

/-- Source `FixedWidthFile.read_file`: per line, dispatch on the first two
characters; unknown tags are skipped, a failed transaction parse is
skipped, a failed footer parse aborts the whole decode (`none`). -/
def read_file : List Str → Option (List Record)
  | [] => some []
  | line :: rest =>
    if pySlice 0 2 line = HEADER_FIELD_ID then
      (read_file rest).bind fun rs => some (Record.header (parse_header line) :: rs)
    else if pySlice 0 2 line = TRANSACTION_FIELD_ID then
      match parse_transaction line with
      | some t => (read_file rest).bind fun rs => some (Record.transaction t :: rs)
      | none => read_file rest
    else if pySlice 0 2 line = FOOTER_FIELD_ID then
      (parse_footer line).bind fun f =>
      (read_file rest).bind fun rs => some (Record.footer f :: rs)
    else read_file rest

/-- Python `str(v)` of a field value. `str()` of a float is its repr,
which is not modelled (`none`); no operation proved below applies it to a
float-valued field. -/
def pyStrV : Value → Option Str
  | .vstr s => some s
  | .vint n => some (intToChars n)
  | .vrat _ => none

/-- A field value used where Python requires a `str` (a `.ljust`/`.strip`
method call); `none` models the raised `AttributeError`. -/
def asStrV : Value → Option Str
  | .vstr s => some s
  | _ => none

/-- Python `int(v * 100)` as it appears in the encoders: on an `int` this
is plain multiplication, on a `float` truncation toward zero, and on a
`str` the `*` is string repetition followed by `int()` parsing. The
`float` case here is the exact-arithmetic idealization of the fixed-point
data model; the interpreter evaluates the product on binary64 doubles,
whose rounding is modelled by `fl53` where that difference is the point. -/
def valueTimes100Int : Value → Option Int
  | .vint n => some (n * 100)
  | .vrat q => some (qtrunc (q * 100))
  | .vstr s => parseIntChars (strip (List.flatten (List.replicate 100 s)))

/-- Source `FixedWidthFile.format_header`. -/
def format_header (h : Header) : Option Str :=
  (pyStrV h.field_id).bind fun fid =>
  (asStrV h.name).bind fun nm =>
  (asStrV h.surname).bind fun sn =>
  (asStrV h.patronymic).bind fun pt =>
  (asStrV h.address).bind fun ad =>
  some (fid ++ ljust 28 nm ++ ljust 30 sn ++ ljust 30 pt ++ ljust 30 ad ++ ['\n'])

/-- Source `FixedWidthFile.format_transaction`. -/
def format_transaction (t : Transaction) : Option Str :=
  (pyStrV t.field_id).bind fun fid =>
  (pyStrV t.counter).bind fun cnt =>
  (valueTimes100Int t.amount).bind fun m =>
  (asStrV t.currency).bind fun cur =>
  some (fid ++ zfill 6 cnt ++ zfill 12 (intToChars m) ++ ljust 3 cur ++
        List.replicate 97 ' ' ++ ['\n'])

/-- Source `FixedWidthFile.format_footer`. -/
def format_footer (f : Footer) : Option Str :=
  (pyStrV f.field_id).bind fun fid =>
  (pyStrV f.total_counter).bind fun tc =>
  (valueTimes100Int f.control_sum).bind fun m =>
  some (fid ++ zfill 6 tc ++ zfill 12 (intToChars m) ++ List.replicate 100 ' ' ++ ['\n'])

def format_record : Record → Option Str
  | .header h => format_header h
  | .transaction t => format_transaction t
  | .footer f => format_footer f

/-- Source `FixedWidthFile.write_file`: encode every record in order; the
result is the full text written to the store. The source opens the file
with mode `"w"` (truncation) before encoding any record, so `none` — an
exception raised while encoding some record — means the store was
truncated and the full sequence was not persisted. -/
def write_file (records : List Record) : Option Str :=
  (records.mapM format_record).map List.flatten

/-- Python `getattr(record, fieldName)` guarded by `hasattr`, per kind. -/
def getAttrH (h : Header) (f : Str) : Option Value :=
  if f = chars "field_id" then some h.field_id
  else if f = chars "name" then some h.name
  else if f = chars "surname" then some h.surname
  else if f = chars "patronymic" then some h.patronymic
  else if f = chars "address" then some h.address
  else none

def getAttrT (t : Transaction) (f : Str) : Option Value :=
  if f = chars "field_id" then some t.field_id
  else if f = chars "counter" then some t.counter
  else if f = chars "amount" then some t.amount
  else if f = chars "currency" then some t.currency
  else none

def getAttrF (ft : Footer) (f : Str) : Option Value :=
  if f = chars "field_id" then some ft.field_id
  else if f = chars "total_counter" then some ft.total_counter
  else if f = chars "control_sum" then some ft.control_sum
  else none

def getAttrV : Record → Str → Option Value
  | .header h, f => getAttrH h f
  | .transaction t, f => getAttrT t f
  | .footer ft, f => getAttrF ft f

/-- Python `hasattr(record, fieldName)`. -/
def hasAttrV (r : Record) (f : Str) : Bool := (getAttrV r f).isSome

/-- Python `record._replace(**{fieldName: v})`, per kind; a name that is
not a field leaves the record unchanged (the callers guard with
`hasattr`). -/
def setAttrH (h : Header) (f : Str) (v : Value) : Header :=
  if f = chars "field_id" then { h with field_id := v }
  else if f = chars "name" then { h with name := v }
  else if f = chars "surname" then { h with surname := v }
  else if f = chars "patronymic" then { h with patronymic := v }
  else if f = chars "address" then { h with address := v }
  else h

def setAttrT (t : Transaction) (f : Str) (v : Value) : Transaction :=
  if f = chars "field_id" then { t with field_id := v }
  else if f = chars "counter" then { t with counter := v }
  else if f = chars "amount" then { t with amount := v }
  else if f = chars "currency" then { t with currency := v }
  else t

def setAttrF (ft : Footer) (f : Str) (v : Value) : Footer :=
  if f = chars "field_id" then { ft with field_id := v }
  else if f = chars "total_counter" then { ft with total_counter := v }
  else if f = chars "control_sum" then { ft with control_sum := v }
  else ft

def setAttrV : Record → Str → Value → Record
  | .header h, f, v => .header (setAttrH h f v)
  | .transaction t, f, v => .transaction (setAttrT t f v)
  | .footer ft, f, v => .footer (setAttrF ft f v)

/-- Source `FixedWidthCLI.get_field_value`, applied to the decoded sequence: scan
in order; at the first record of the requested kind return the named
field, or report not-found (`none`) if that kind lacks the field; report
not-found (`none`) if no record of the kind occurs. -/
def get_field_value : List Record → RecKind → Str → Option Value
  | [], _, _ => none
  | r :: rs, k, f => if kindOf r = k then getAttrV r f else get_field_value rs k f

/-- Source `FixedWidthCLI.change_field_value`, applied to the decoded sequence:
rewrite every record of the requested kind that has the field, keep every
other record; `write_file` is then invoked unconditionally, so the result
is always `some` of the full rewritten sequence handed to `write_file`.
Whether that write completes is `write_file`'s affair: it raises midway
on a value that cannot be encoded into its field. -/
def change_field_value (records : List Record) (k : RecKind) (f : Str) (v : Value) :
    Option (List Record) :=
  some (records.map fun r => if kindOf r = k ∧ hasAttrV r f then setAttrV r f v else r)

/-- Python `records.insert(-1, x)`: insert at position `len - 1` (clamped
to 0 on the empty list). -/
def insertBeforeLast (l : List Record) (x : Record) : List Record :=
  l.take (l.length - 1) ++ x :: l.drop (l.length - 1)

/-- Source `FixedWidthCLI.add_transaction`, applied to the decoded sequence:
build the new Transaction and insert it before the last element, then
persist (`write_file` is invoked unconditionally). -/
def add_transaction (records : List Record) (counter amount currency : Value) :
    Option (List Record) :=
  some (insertBeforeLast records
    (Record.transaction
      { field_id := .vstr TRANSACTION_FIELD_ID
      , counter := counter
      , amount := amount
      , currency := currency }))

/-- Python cross-type `==` between a field value and an `int` (`str != int`
is simply unequal; `float == int` compares numerically). -/
def pyEqInt (v : Value) (n : Nat) : Bool :=
  match v with
  | .vint m => m = (n : Int)
  | .vrat q => q = (n : ℚ)
  | .vstr _ => false

/-- A field value used in arithmetic (`sum`, `round`); `none` models the
raised `TypeError` on a non-numeric value. -/
def valueToRat : Value → Option ℚ
  | .vint n => some ((n : ℚ))
  | .vrat q => some q
  | .vstr _ => none

/-- Python `i.amount` of a middle-slice element, as used by the control-sum
check (the element is a Transaction whenever this is reached). -/
def amountOfR : Record → Option ℚ
  | .transaction t => valueToRat t.amount
  | _ => none

/-- The outcome reported by `validate_file_structure` (`True`, or `False`
together with the logged reason of the first failing check). -/
inductive Reason where
  | firstNotHeader
  | lastNotFooter
  | notAllTransactions
  | counterMismatch
  | controlSumMismatch
deriving DecidableEq

inductive Verdict where
  | valid
  | invalid (reason : Reason)
deriving DecidableEq

/-- Source `FixedWidthCLI.validate_file_structure`, applied to the decoded
sequence. `none` models an uncaught exception: on the empty sequence the
very first step, `records[0]`, raises `IndexError`. The five checks run
in the source order and short-circuit. -/
def validate_file_structure (records : List Record) : Option Verdict :=
  records.head?.bind fun first =>
  records.getLast?.bind fun lastR =>
  if isHeaderR first then
    if isFooterR lastR then
      if ((records.drop 1).dropLast.all isTransactionR) then
        (footerOf lastR).bind fun f =>
        if pyEqInt f.total_counter (records.drop 1).dropLast.length then
          (((records.drop 1).dropLast.mapM amountOfR)).bind fun amounts =>
          (valueToRat f.control_sum).bind fun cs =>
          some (if round2 amounts.sum = round2 cs then Verdict.valid
                else Verdict.invalid Reason.controlSumMismatch)
        else some (Verdict.invalid Reason.counterMismatch)
      else some (Verdict.invalid Reason.notAllTransactions)
    else some (Verdict.invalid Reason.lastNotFooter)
  else some (Verdict.invalid Reason.firstNotHeader)

/-- Little-endian numeric value of a digit-character list (specification
device for relating `natToCharsAux` to `charsToNat`). -/
def leVal (l : Str) : Nat := l.foldr (fun c r => (c.toNat - 48) + 10 * r) 0

/-- The record shapes that `read_file` can produce: every field holds the
value kind the parser stores there. -/
def wfRecord : Record → Bool
  | .header h =>
    (match h.field_id, h.name, h.surname, h.patronymic, h.address with
     | .vstr _, .vstr _, .vstr _, .vstr _, .vstr _ => true
     | _, _, _, _, _ => false)
  | .transaction t =>
    (match t.field_id, t.counter, t.amount, t.currency with
     | .vstr _, .vint _, .vrat _, .vstr _ => true
     | _, _, _, _ => false)
  | .footer f =>
    (match f.field_id, f.total_counter, f.control_sum with
     | .vstr _, .vint _, .vrat _ => true
     | _, _, _ => false)

/-- Example records used by the concrete instantiations below. -/
def exHeader : Header :=
  { field_id := .vstr HEADER_FIELD_ID, name := .vstr (chars "John")
  , surname := .vstr (chars "Doe"), patronymic := .vstr (chars "K")
  , address := .vstr (chars "Addr") }

def exTransaction (n : Int) (q : ℚ) : Transaction :=
  { field_id := .vstr TRANSACTION_FIELD_ID, counter := .vint n
  , amount := .vrat q, currency := .vstr (chars "USD") }

def exFooter (n : Int) (q : ℚ) : Footer :=
  { field_id := .vstr FOOTER_FIELD_ID, total_counter := .vint n, control_sum := .vrat q }

/-- A decodable but malformed sequence whose first record is not a Header
while its middle slice contains a non-Transaction. -/
def seqFooterFirst : List Record :=
  [Record.footer (exFooter 0 0), Record.header exHeader, Record.footer (exFooter 0 0)]

/-- A sequence passing checks (1)–(2) whose middle contains a Header. -/
def seqBadMiddle : List Record :=
  [Record.header exHeader, Record.header exHeader, Record.footer (exFooter 1 0)]

/-- A valid 1-Header/2-Transaction/1-Footer sequence. -/
def seqHTTF : List Record :=
  [Record.header exHeader, Record.transaction (exTransaction 1 10),
   Record.transaction (exTransaction 2 10), Record.footer (exFooter 2 20)]

/-- A valid 1-Header/1-Transaction/1-Footer sequence. -/
def seqHTF : List Record :=
  [Record.header exHeader, Record.transaction (exTransaction 1 20),
   Record.footer (exFooter 1 20)]

/-- A sequence with no Transaction records. -/
def seqNoTrans : List Record := [Record.header exHeader, Record.footer (exFooter 0 0)]

/-- A sequence with two Header records (malformed but decodable). -/
def seqTwoHeaders : List Record :=
  [Record.header exHeader, Record.header exHeader, Record.footer (exFooter 0 0)]

/-- A concrete valid transaction record for the round-trip instantiation. -/
def exRoundTrip : Transaction :=
  { field_id := .vstr TRANSACTION_FIELD_ID, counter := .vint 3
  , amount := .vrat ((4500 : ℚ) / 100), currency := .vstr (chars "USD") }

/-- A transaction line whose amount field contains the non-digit string
`"00000001A00 "` (strips to the spec's example `"00000001A00"`). -/
def lineBadAmount : Str :=
  chars "02" ++ chars "000001" ++ chars "00000001A00 " ++ chars "USD"

/-- A short header line (the header parser performs no validation and the
slices clamp, so any line tagged `"01"` decodes). -/
def lineHeader : Str := chars "01" ++ chars "Ann"

/-- Round a positive rational `q` lying in the binade `[2^e, 2^(e+1))` to
the nearest IEEE-754 binary64 value: the 53-bit scaled significand
`q * 2^(52-e)` is rounded half-to-even and rescaled. Given the binade
bounds on `q` (stated alongside every use), this is exactly the result of
a double operation whose exact value is `q`. -/
def fl53 (e : Int) (q : ℚ) : ℚ :=
  (halfEvenZ (q * (2 : ℚ) ^ (52 - e)) : ℚ) * (2 : ℚ) ^ (e - 52)

/-- A sequence holding a single Transaction record. -/
def seqOneTrans : List Record := [Record.transaction (exTransaction 1 10)]

-- ### Theorems ###

/-- A digit character is not whitespace. -/
theorem isDigit_not_ws {c : Char} (h : c.isDigit = true) : c.isWhitespace = false := by
  rcases Bool.eq_false_or_eq_true c.isWhitespace with hw | hw
  · exfalso
    have hcases : ((c = ' ' ∨ c = '\t') ∨ c = '\r') ∨ c = '\n' := by
      simpa [Char.isWhitespace] using hw
    rcases hcases with ((rfl | rfl) | rfl) | rfl <;> exact absurd h (by decide)
  · exact hw

/-- A digit character is neither a minus nor a plus sign. -/
theorem isDigit_ne_sign {c : Char} (h : c.isDigit = true) : ¬(c = '-' ∨ c = '+') := by
  rintro (rfl | rfl) <;> exact absurd h (by decide)

theorem mem_allDigits {l : Str} (h : allDigits l = true) {c : Char} (hc : c ∈ l) :
    c.isDigit = true :=
  List.all_eq_true.mp h c hc

theorem digitChar_isDigit {d : Nat} (h : d < 10) : (digitChar d).isDigit = true := by
  interval_cases d <;> decide

theorem digitChar_toNat {d : Nat} (h : d < 10) : (digitChar d).toNat - 48 = d := by
  interval_cases d <;> decide

theorem dropWhile_ws_of_digits {l : Str} (h : ∀ c ∈ l, c.isDigit = true) :
    l.dropWhile Char.isWhitespace = l := by
  cases l with
  | nil => rfl
  | cons c cs =>
    rw [List.dropWhile_cons, isDigit_not_ws (h c (List.mem_cons_self c cs))]
    simp

/-- Function `strip` is the identity on an all-digit string. -/
theorem strip_of_digits {l : Str} (h : allDigits l = true) : strip l = l := by
  have hm : ∀ c ∈ l, c.isDigit = true := fun c hc => mem_allDigits h hc
  unfold strip
  rw [dropWhile_ws_of_digits hm,
      dropWhile_ws_of_digits (fun c hc => hm c (List.mem_reverse.mp hc)),
      List.reverse_reverse]

theorem allDigits_replicate_zero (k : Nat) : allDigits (List.replicate k '0') = true := by
  induction k with
  | zero => rfl
  | succ k ih =>
    rw [List.replicate_succ]
    unfold allDigits at ih ⊢
    simp only [List.all_cons, ih]
    rfl

theorem allDigits_append {l₁ l₂ : Str} (h₁ : allDigits l₁ = true) (h₂ : allDigits l₂ = true) :
    allDigits (l₁ ++ l₂) = true := by
  unfold allDigits at h₁ h₂ ⊢
  rw [List.all_append, h₁, h₂]
  rfl

/-- On a nonempty all-digit string, `zfill` is plain left zero padding. -/
theorem zfill_of_digits {w : Nat} {l : Str} (hd : allDigits l = true) (hne : l ≠ []) :
    zfill w l = List.replicate (w - l.length) '0' ++ l := by
  cases l with
  | nil => exact absurd rfl hne
  | cons c cs =>
    rw [zfill, if_neg (isDigit_ne_sign (mem_allDigits hd (List.mem_cons_self c cs)))]

theorem zfill_of_digits_allDigits {w : Nat} {l : Str} (hd : allDigits l = true) (hne : l ≠ []) :
    allDigits (zfill w l) = true := by
  rw [zfill_of_digits hd hne]
  exact allDigits_append (allDigits_replicate_zero _) hd

theorem zfill_of_digits_length {w : Nat} {l : Str} (hd : allDigits l = true) (hne : l ≠ [])
    (hlen : l.length ≤ w) : (zfill w l).length = w := by
  rw [zfill_of_digits hd hne]
  simp only [List.length_append, List.length_replicate]
  omega

theorem zfill_of_digits_ne_nil {w : Nat} {l : Str} (hd : allDigits l = true) (hne : l ≠ []) :
    zfill w l ≠ [] := by
  rw [zfill_of_digits hd hne]
  intro hc
  rcases List.append_eq_nil.mp hc with ⟨-, h2⟩
  exact hne h2

theorem charsToNat_replicate_zero (k : Nat) (l : Str) :
    charsToNat (List.replicate k '0' ++ l) = charsToNat l := by
  induction k with
  | zero => simp
  | succ k ih =>
    unfold charsToNat at ih ⊢
    rw [List.replicate_succ, List.cons_append, List.foldl_cons]
    have h0 : (10 * 0 + ('0'.toNat - 48)) = 0 := by decide
    rw [h0]
    exact ih

theorem charsToNat_zfill {w : Nat} {l : Str} (hd : allDigits l = true) (hne : l ≠ []) :
    charsToNat (zfill w l) = charsToNat l := by
  rw [zfill_of_digits hd hne, charsToNat_replicate_zero]

/-- Function `parseIntChars` succeeds on a nonempty all-digit string. -/
theorem parseIntChars_digits {l : Str} (hd : allDigits l = true) (hne : l ≠ []) :
    parseIntChars l = some ((charsToNat l : Int)) := by
  cases l with
  | nil => exact absurd rfl hne
  | cons c cs =>
    have hs := isDigit_ne_sign (mem_allDigits hd (List.mem_cons_self c cs))
    rw [parseIntChars]
    rw [if_neg (fun h => hs (Or.inl h)), if_neg (fun h => hs (Or.inr h)), if_pos hd]

theorem foldl_rev_eq (L : List Char) (a : Nat) :
    (L.reverse).foldl (fun a c => 10 * a + (c.toNat - 48)) a =
      a * 10 ^ L.length + leVal L := by
  induction L generalizing a with
  | nil => simp [leVal]
  | cons c L ih =>
    rw [List.reverse_cons, List.foldl_append, ih]
    simp only [List.foldl_cons, List.foldl_nil, leVal, List.foldr_cons, List.length_cons]
    ring

theorem leVal_natToCharsAux : ∀ fuel n : Nat, n ≤ fuel → leVal (natToCharsAux fuel n) = n := by
  intro fuel
  induction fuel with
  | zero =>
    intro n h
    have : n = 0 := by omega
    subst this
    rfl
  | succ fuel ih =>
    intro n h
    by_cases h0 : n = 0
    · subst h0; rfl
    · rw [natToCharsAux, if_neg h0]
      have hlt : n / 10 < n := Nat.div_lt_self (Nat.pos_of_ne_zero h0) (by norm_num)
      unfold leVal
      rw [List.foldr_cons]
      have hmod : (digitChar (n % 10)).toNat - 48 = n % 10 :=
        digitChar_toNat (Nat.mod_lt n (by norm_num))
      rw [hmod]
      have := ih (n / 10) (by omega)
      unfold leVal at this
      rw [this]
      omega

theorem natToCharsAux_digits : ∀ fuel n : Nat, allDigits (natToCharsAux fuel n) = true := by
  intro fuel
  induction fuel with
  | zero => intro n; rfl
  | succ fuel ih =>
    intro n
    by_cases h0 : n = 0
    · subst h0; rfl
    · rw [natToCharsAux, if_neg h0]
      unfold allDigits
      rw [List.all_cons, digitChar_isDigit (Nat.mod_lt n (by norm_num))]
      have := ih (n / 10)
      unfold allDigits at this
      rw [this]
      rfl

theorem natToCharsAux_length : ∀ fuel n k : Nat, n ≤ fuel → n < 10 ^ k →
    (natToCharsAux fuel n).length ≤ k := by
  intro fuel
  induction fuel with
  | zero =>
    intro n k h1 h2
    have : n = 0 := by omega
    subst this
    simp [natToCharsAux]
  | succ fuel ih =>
    intro n k h1 h2
    by_cases h0 : n = 0
    · subst h0; simp [natToCharsAux]
    · rw [natToCharsAux, if_neg h0]
      cases k with
      | zero =>
        exfalso
        simp at h2
        omega
      | succ k =>
        simp only [List.length_cons]
        have hlt : n / 10 < n := Nat.div_lt_self (Nat.pos_of_ne_zero h0) (by norm_num)
        have hdiv : n / 10 < 10 ^ k := by
          rw [pow_succ] at h2
          exact (Nat.div_lt_iff_lt_mul (by norm_num : 0 < 10)).mpr h2
        have := ih (n / 10) k (by omega) hdiv
        omega

theorem charsToNat_natToChars (n : Nat) : charsToNat (natToChars n) = n := by
  unfold natToChars
  by_cases h0 : n = 0
  · subst h0
    rw [if_pos rfl]
    decide
  · rw [if_neg h0]
    unfold charsToNat
    rw [foldl_rev_eq]
    rw [leVal_natToCharsAux n n le_rfl]
    simp

theorem natToChars_digits (n : Nat) : allDigits (natToChars n) = true := by
  unfold natToChars
  split
  · decide
  · unfold allDigits
    rw [List.all_reverse]
    exact natToCharsAux_digits n n

theorem natToChars_ne_nil (n : Nat) : natToChars n ≠ [] := by
  unfold natToChars
  split
  · simp
  · intro hc
    next h0 =>
      cases n with
      | zero => exact h0 rfl
      | succ m =>
        rw [natToCharsAux, if_neg h0] at hc
        simp at hc

theorem natToChars_length_le {n k : Nat} (hk : 0 < k) (h : n < 10 ^ k) :
    (natToChars n).length ≤ k := by
  unfold natToChars
  split
  · simpa using hk
  · rw [List.length_reverse]
    exact natToCharsAux_length n n k le_rfl h

theorem intToChars_natCast (m : Nat) : intToChars ((m : Int)) = natToChars m := by
  unfold intToChars
  rw [if_neg (by exact not_lt.mpr (Int.natCast_nonneg m)), Int.toNat_natCast]

theorem qtrunc_natCast (m : Nat) : qtrunc ((m : ℚ)) = (m : Int) := by
  unfold qtrunc
  rw [Rat.num_natCast, Rat.den_natCast]
  exact Int.tdiv_one (m : Int)

theorem pySlice_pre (a b : Nat) (p x rest : Str) (hp : p.length = a)
    (hx : x.length = b - a) : pySlice a b (p ++ (x ++ rest)) = x := by
  unfold pySlice
  subst hp
  rw [List.drop_left, ← hx, List.take_left]

theorem ljust_exact {w : Nat} {l : Str} (h : l.length = w) : ljust w l = l := by
  unfold ljust
  rw [h]
  simp

theorem currency_facts {c : Str} (h : c ∈ CURRENCY_VALUES) :
    c.length = 3 ∧ strip c = c := by
  fin_cases h <;> exact ⟨rfl, rfl⟩

/-- The round-trip contract under exact fixed-point arithmetic: for every
valid Transaction record `r` — tag `"02"`, non-negative counter of at most
6 digits, amount a non-negative 2-decimal fixed-point value whose scaled
magnitude fits 12 digits, currency in the allowed set — decoding the
encoded line reproduces `r` exactly. This is the contract the encoder
would satisfy if `int(amount * 100)` were evaluated exactly; the
interpreter's binary64 evaluation breaks it (shown separately at amount
0.29). -/
theorem format_parse_roundtrip_exact (t : Transaction) (n m : Nat) (c : Str)
    (hfid : t.field_id = Value.vstr TRANSACTION_FIELD_ID)
    (hcnt : t.counter = Value.vint (n : Int)) (hn : n ≤ 999999)
    (ham : t.amount = Value.vrat ((m : ℚ) / 100)) (hm : m < 10 ^ 12)
    (hcur : t.currency = Value.vstr c) (hc : c ∈ CURRENCY_VALUES) :
    (format_transaction t).bind parse_transaction = some t := by
  have ht : t = { field_id := Value.vstr TRANSACTION_FIELD_ID
                , counter := Value.vint (n : Int)
                , amount := Value.vrat ((m : ℚ) / 100)
                , currency := Value.vstr c } := by
    obtain ⟨a, b, d, e⟩ := t
    simp only [Transaction.mk.injEq]
    exact ⟨hfid, hcnt, ham, hcur⟩
  rw [ht]
  have hq : ((m : ℚ) / 100) * 100 = (m : ℚ) := div_mul_cancel₀ _ (by norm_num)
  have hlenc := (currency_facts hc).1
  have hstripc := (currency_facts hc).2
  simp only [format_transaction, pyStrV, asStrV, valueTimes100Int, Option.bind,
    hq, qtrunc_natCast, intToChars_natCast, ljust_exact hlenc]
  -- the encoded line, grouped to the right
  have dA : allDigits (zfill 6 (natToChars n)) = true :=
    zfill_of_digits_allDigits (natToChars_digits n) (natToChars_ne_nil n)
  have neA : zfill 6 (natToChars n) ≠ [] :=
    zfill_of_digits_ne_nil (natToChars_digits n) (natToChars_ne_nil n)
  have lA : (zfill 6 (natToChars n)).length = 6 := by
    refine zfill_of_digits_length (natToChars_digits n) (natToChars_ne_nil n) ?_
    refine natToChars_length_le (by norm_num) ?_
    have h6 : (10 : Nat) ^ 6 = 1000000 := by norm_num
    omega
  have dB : allDigits (zfill 12 (natToChars m)) = true :=
    zfill_of_digits_allDigits (natToChars_digits m) (natToChars_ne_nil m)
  have neB : zfill 12 (natToChars m) ≠ [] :=
    zfill_of_digits_ne_nil (natToChars_digits m) (natToChars_ne_nil m)
  have lB : (zfill 12 (natToChars m)).length = 12 := by
    refine zfill_of_digits_length (natToChars_digits m) (natToChars_ne_nil m) ?_
    exact natToChars_length_le (by norm_num) hm
  simp only [List.append_assoc]
  have s1 : pySlice 2 8 (TRANSACTION_FIELD_ID ++ (zfill 6 (natToChars n) ++
      (zfill 12 (natToChars m) ++ (c ++ (List.replicate 97 ' ' ++ ['\n']))))) =
      zfill 6 (natToChars n) := by
    refine pySlice_pre 2 8 _ _ _ rfl ?_
    rw [lA]
  have s2 : pySlice 8 20 (TRANSACTION_FIELD_ID ++ (zfill 6 (natToChars n) ++
      (zfill 12 (natToChars m) ++ (c ++ (List.replicate 97 ' ' ++ ['\n']))))) =
      zfill 12 (natToChars m) := by
    rw [show TRANSACTION_FIELD_ID ++ (zfill 6 (natToChars n) ++
        (zfill 12 (natToChars m) ++ (c ++ (List.replicate 97 ' ' ++ ['\n'])))) =
        (TRANSACTION_FIELD_ID ++ zfill 6 (natToChars n)) ++
        (zfill 12 (natToChars m) ++ (c ++ (List.replicate 97 ' ' ++ ['\n']))) from
      by rw [List.append_assoc]]
    refine pySlice_pre 8 20 _ _ _ ?_ ?_
    · rw [List.length_append, lA]; decide
    · rw [lB]
  have s3 : pySlice 20 23 (TRANSACTION_FIELD_ID ++ (zfill 6 (natToChars n) ++
      (zfill 12 (natToChars m) ++ (c ++ (List.replicate 97 ' ' ++ ['\n']))))) = c := by
    rw [show TRANSACTION_FIELD_ID ++ (zfill 6 (natToChars n) ++
        (zfill 12 (natToChars m) ++ (c ++ (List.replicate 97 ' ' ++ ['\n'])))) =
        ((TRANSACTION_FIELD_ID ++ zfill 6 (natToChars n)) ++ zfill 12 (natToChars m)) ++
        (c ++ (List.replicate 97 ' ' ++ ['\n'])) from by
      rw [List.append_assoc, List.append_assoc]]
    refine pySlice_pre 20 23 _ _ _ ?_ ?_
    · rw [List.length_append, List.length_append, lA, lB]; decide
    · rw [hlenc]
  simp only [parse_transaction, s1, s2, s3, strip_of_digits dA, strip_of_digits dB, hstripc]
  rw [if_neg (not_not_intro ⟨lB, dB⟩), parseIntChars_digits dA neA]
  dsimp only
  rw [if_pos hc]
  have cA : charsToNat (zfill 6 (natToChars n)) = n := by
    rw [charsToNat_zfill (natToChars_digits n) (natToChars_ne_nil n), charsToNat_natToChars]
  have cB : charsToNat (zfill 12 (natToChars m)) = m := by
    rw [charsToNat_zfill (natToChars_digits m) (natToChars_ne_nil m), charsToNat_natToChars]
  rw [cA, cB]

/-- Instance of the exact-arithmetic round trip at counter 3, amount
45.00, currency `"USD"`. -/
theorem format_parse_roundtrip_exact_instance :
    (format_transaction exRoundTrip).bind parse_transaction = some exRoundTrip :=
  format_parse_roundtrip_exact exRoundTrip 3 4500 (chars "USD") rfl rfl (by decide) rfl
    (by decide) rfl (by decide)

theorem qfloor_eq_floor (q : ℚ) : qfloor q = ⌊q⌋ := by
  unfold qfloor
  rw [Int.fdiv_eq_ediv _ (Int.natCast_nonneg q.den)]
  exact Rat.floor_def.symm

theorem qfloor_eq {q : ℚ} {n : Int} (h1 : (n : ℚ) ≤ q) (h2 : q < n + 1) :
    qfloor q = n := by
  rw [qfloor_eq_floor]
  exact Int.floor_eq_iff.mpr ⟨h1, h2⟩

theorem qtrunc_eq_nonneg {q : ℚ} {n : Int} (h0 : 0 ≤ q) (h1 : (n : ℚ) ≤ q)
    (h2 : q < n + 1) : qtrunc q = n := by
  unfold qtrunc
  rw [Int.tdiv_eq_ediv (Rat.num_nonneg.mpr h0) (Int.natCast_nonneg q.den), ← Rat.floor_def]
  exact Int.floor_eq_iff.mpr ⟨h1, h2⟩

/-- Evaluation of `halfEvenZ` when the value sits strictly below the
midpoint of `[n, n+1]`. -/
theorem halfEvenZ_eq_low {x : ℚ} {n : Int} (h1 : (n : ℚ) ≤ x) (h2 : x < (n : ℚ) + 1 / 2) :
    halfEvenZ x = n := by
  have hfl : qfloor x = n := qfloor_eq h1 (by linarith)
  simp only [halfEvenZ, hfl]
  rw [if_pos (by linarith)]

/-- Evaluation of `halfEvenZ` when the value sits strictly above the
midpoint of `[n, n+1]`. -/
theorem halfEvenZ_eq_high {x : ℚ} {n : Int} (h1 : (n : ℚ) + 1 / 2 < x) (h2 : x < (n : ℚ) + 1) :
    halfEvenZ x = n + 1 := by
  have hfl : qfloor x = n := qfloor_eq (by linarith) h2
  simp only [halfEvenZ, hfl]
  rw [if_neg (by linarith), if_pos (by linarith)]

/-- Rewriting `fl53` with the integer exponents evaluated to a natural
scaling power. -/
theorem fl53_eval {e : Int} {k : Nat} (hk : 52 - e = (k : Int)) (q : ℚ) :
    fl53 e q = (halfEvenZ (q * 2 ^ k) : ℚ) / 2 ^ k := by
  have h2 : e - 52 = -(k : Int) := by omega
  unfold fl53
  rw [hk, h2, zpow_natCast, zpow_neg, zpow_natCast, div_eq_mul_inv]

/-- C1: the round trip fails in the program at amount 0.29. Under binary64
evaluation, the amount decoded from the field `"000000000029"` is the
double nearest 29/100 (first two conjuncts certify the binade [1/4, 1/2),
exponent -2, and the rounded value); `int(transaction.amount * 100)` at
the encoder then rounds the product inside the binade [16, 32), exponent
4, and truncates it to 28, not 29 (next two conjuncts); the record
therefore re-encodes with amount field `"000000000028"` (next conjunct),
whose decode is the double nearest 28/100, different from the stored
amount (last two conjuncts): decode(encode(r)) ≠ r. -/
theorem spec_c1 :
    charsToNat (chars "000000000029") = 29 ∧
    ((1 : ℚ) / 4 ≤ (29 : ℚ) / 100 ∧ (29 : ℚ) / 100 < 1 / 2) ∧
    fl53 (-2) ((29 : ℚ) / 100) = 5224175567749775 / 2 ^ 54 ∧
    ((16 : ℚ) ≤ (5224175567749775 : ℚ) / 2 ^ 54 * 100 ∧
      (5224175567749775 : ℚ) / 2 ^ 54 * 100 < 32) ∧
    qtrunc (fl53 4 ((5224175567749775 : ℚ) / 2 ^ 54 * 100)) = 28 ∧
    zfill 12 (intToChars (qtrunc (fl53 4 ((5224175567749775 : ℚ) / 2 ^ 54 * 100)))) =
      chars "000000000028" ∧
    ((1 : ℚ) / 4 ≤ (28 : ℚ) / 100 ∧ (28 : ℚ) / 100 < 1 / 2) ∧
    fl53 (-2) ((28 : ℚ) / 100) ≠ fl53 (-2) ((29 : ℚ) / 100) := by
  have hB54 : fl53 (-2) ((29 : ℚ) / 100) =
      (halfEvenZ ((29 : ℚ) / 100 * 2 ^ 54) : ℚ) / 2 ^ 54 := fl53_eval (by norm_num) _
  have hBh : halfEvenZ ((29 : ℚ) / 100 * 2 ^ 54) = 5224175567749775 :=
    halfEvenZ_eq_low (by norm_num) (by norm_num)
  have hB : fl53 (-2) ((29 : ℚ) / 100) = 5224175567749775 / 2 ^ 54 := by
    rw [hB54, hBh]
    norm_num
  have hD48 : fl53 4 ((5224175567749775 : ℚ) / 2 ^ 54 * 100) =
      (halfEvenZ ((5224175567749775 : ℚ) / 2 ^ 54 * 100 * 2 ^ 48) : ℚ) / 2 ^ 48 :=
    fl53_eval (by norm_num) _
  have hDh : halfEvenZ ((5224175567749775 : ℚ) / 2 ^ 54 * 100 * 2 ^ 48) = 8162774324609023 :=
    halfEvenZ_eq_low (by norm_num) (by norm_num)
  have hD : qtrunc (fl53 4 ((5224175567749775 : ℚ) / 2 ^ 54 * 100)) = 28 := by
    rw [hD48, hDh]
    exact qtrunc_eq_nonneg (by norm_num) (by norm_num) (by norm_num)
  have hF54 : fl53 (-2) ((28 : ℚ) / 100) =
      (halfEvenZ ((28 : ℚ) / 100 * 2 ^ 54) : ℚ) / 2 ^ 54 := fl53_eval (by norm_num) _
  have hFh : halfEvenZ ((28 : ℚ) / 100 * 2 ^ 54) = 5044031582654955 + 1 :=
    halfEvenZ_eq_high (by norm_num) (by norm_num)
  refine ⟨by decide, ⟨by norm_num, by norm_num⟩, hB, ⟨by norm_num, by norm_num⟩, hD, ?_, 
    ⟨by norm_num, by norm_num⟩, ?_⟩
  · rw [hD]
    decide
  · rw [hF54, hFh, hB]
    norm_num

/-- C2 (amended): On every decoded record sequence that reports a verdict
(every non-empty sequence), the five checks run in the fixed order and
short-circuit, so the reported reason is that of the first failing check;
a sequence passing checks (1) and (2) whose middle slice contains a
non-Transaction is reported Invalid with the "not all Transactions"
reason, never a later-order one. -/
theorem spec_c2 (records : List Record) (r0 rl : Record)
    (h0 : records.head? = some r0) (hl : records.getLast? = some rl) :
    (isHeaderR r0 = false →
      validate_file_structure records = some (Verdict.invalid Reason.firstNotHeader)) ∧
    (isHeaderR r0 = true → isFooterR rl = false →
      validate_file_structure records = some (Verdict.invalid Reason.lastNotFooter)) ∧
    (isHeaderR r0 = true → isFooterR rl = true →
      ((records.drop 1).dropLast.all isTransactionR) = false →
      validate_file_structure records = some (Verdict.invalid Reason.notAllTransactions)) ∧
    (∀ f : Footer, isHeaderR r0 = true → rl = Record.footer f →
      ((records.drop 1).dropLast.all isTransactionR) = true →
      pyEqInt f.total_counter (records.drop 1).dropLast.length = false →
      validate_file_structure records = some (Verdict.invalid Reason.counterMismatch)) ∧
    (∀ (f : Footer) (amounts : List ℚ) (cs : ℚ),
      isHeaderR r0 = true → rl = Record.footer f →
      ((records.drop 1).dropLast.all isTransactionR) = true →
      pyEqInt f.total_counter (records.drop 1).dropLast.length = true →
      (records.drop 1).dropLast.mapM amountOfR = some amounts →
      valueToRat f.control_sum = some cs →
      validate_file_structure records =
        some (if round2 amounts.sum = round2 cs then Verdict.valid
              else Verdict.invalid Reason.controlSumMismatch)) := by
  unfold validate_file_structure
  rw [h0, hl]
  simp only [Option.bind]
  refine ⟨?_, ?_, ?_, ?_, ?_⟩
  · intro h
    rw [if_neg (ne_true_of_eq_false h)]
  · intro h1 h2
    rw [if_pos h1, if_neg (ne_true_of_eq_false h2)]
  · intro h1 h2 h3
    rw [if_pos h1, if_pos h2, if_neg (ne_true_of_eq_false h3)]
  · intro f h1 h2 h3 h4
    subst h2
    rw [if_pos h1, if_pos (show isFooterR (Record.footer f) = true from rfl), if_pos h3]
    simp only [footerOf, Option.bind]
    rw [if_neg (ne_true_of_eq_false h4)]
  · intro f amounts cs h1 h2 h3 h4 hM hcs
    subst h2
    rw [if_pos h1, if_pos (show isFooterR (Record.footer f) = true from rfl), if_pos h3]
    simp only [footerOf, Option.bind]
    rw [if_pos h4, hM]
    simp only [Option.bind]
    rw [hcs]

/-- Counterexample to C2 as stated: `seqFooterFirst` has a non-Transaction
in its middle slice, yet the reported reason is the earlier-order
"first record is not a Header", not "not all Transactions". -/
theorem spec_c2_cex :
    ((seqFooterFirst.drop 1).dropLast.all isTransactionR) = false ∧
    validate_file_structure seqFooterFirst = some (Verdict.invalid Reason.firstNotHeader) ∧
    validate_file_structure seqFooterFirst ≠ some (Verdict.invalid Reason.notAllTransactions) := by
  refine ⟨rfl, rfl, ?_⟩
  intro h
  rw [show validate_file_structure seqFooterFirst =
      some (Verdict.invalid Reason.firstNotHeader) from rfl] at h
  exact absurd (Option.some.injEq _ _ ▸ h) (by decide)

/-- Witness for C2: a sequence passing checks (1)–(2) whose middle slice
contains a Header is reported with the "not all Transactions" reason. -/
theorem spec_c2_witness :
    validate_file_structure seqBadMiddle = some (Verdict.invalid Reason.notAllTransactions) :=
  (spec_c2 seqBadMiddle (Record.header exHeader) (Record.footer (exFooter 1 0))
    rfl rfl).2.2.1 rfl rfl rfl

/-- On a list of well-shaped Transaction records the amount extraction
used by the control-sum check succeeds. -/
theorem mapM_amount_some {l : List Record} (hwf : ∀ r ∈ l, wfRecord r = true)
    (ht : l.all isTransactionR = true) : ∃ qs : List ℚ, l.mapM amountOfR = some qs := by
  induction l with
  | nil => exact ⟨[], rfl⟩
  | cons r l ih =>
    have hr : isTransactionR r = true := (List.all_eq_true.mp ht) r (List.mem_cons_self r l)
    obtain ⟨t, rfl⟩ : ∃ t, r = Record.transaction t := by
      cases r with
      | transaction t => exact ⟨t, rfl⟩
      | header h => exact absurd hr (by simp [isTransactionR, kindOf])
      | footer f => exact absurd hr (by simp [isTransactionR, kindOf])
    obtain ⟨q, hq⟩ : ∃ q, amountOfR (Record.transaction t) = some q := by
      have := hwf _ (List.mem_cons_self _ l)
      obtain ⟨fid, cnt, am, cur⟩ := t
      cases am with
      | vrat q => exact ⟨q, rfl⟩
      | vstr s => simp [wfRecord] at this
      | vint n => simp [wfRecord] at this
    obtain ⟨qs, hqs⟩ := ih (fun r hr => hwf r (List.mem_cons_of_mem _ hr))
      (by
        have := List.all_eq_true.mp ht
        exact List.all_eq_true.mpr fun x hx => this x (List.mem_cons_of_mem _ hx))
    refine ⟨q :: qs, ?_⟩
    rw [List.mapM_cons, hq, hqs]
    rfl

/-- C3 (amended): On every non-empty decoded record sequence the validator
returns a Valid/Invalid verdict as data; on the empty sequence the initial
`records[0]` access is a hard failure instead. -/
theorem spec_c3 (records : List Record) (hne : records ≠ [])
    (hwf : ∀ r ∈ records, wfRecord r = true) :
    ∃ v, validate_file_structure records = some v := by
  obtain ⟨r0, h0⟩ : ∃ r0, records.head? = some r0 := by
    cases records with
    | nil => exact absurd rfl hne
    | cons a l => exact ⟨a, rfl⟩
  have hl : records.getLast? = some (records.getLast hne) :=
    List.getLast?_eq_getLast records hne
  unfold validate_file_structure
  rw [h0, hl]
  simp only [Option.bind]
  by_cases c1 : isHeaderR r0 = true
  · rw [if_pos c1]
    by_cases c2 : isFooterR (records.getLast hne) = true
    · obtain ⟨f, hf⟩ : ∃ f, records.getLast hne = Record.footer f := by
        cases hg : records.getLast hne with
        | footer f => exact ⟨f, rfl⟩
        | header h => rw [hg] at c2; exact absurd c2 (by simp [isFooterR, kindOf])
        | transaction t => rw [hg] at c2; exact absurd c2 (by simp [isFooterR, kindOf])
      rw [if_pos c2, hf]
      simp only [footerOf, Option.bind]
      by_cases c3 : ((records.drop 1).dropLast.all isTransactionR) = true
      · rw [if_pos c3]
        by_cases c4 : pyEqInt f.total_counter (records.drop 1).dropLast.length = true
        · rw [if_pos c4]
          obtain ⟨qs, hqs⟩ := mapM_amount_some
            (fun r hr =>
              hwf r (List.drop_subset 1 records (List.dropLast_subset _ hr))) c3
          rw [hqs]
          simp only [Option.bind]
          obtain ⟨cq, hcq⟩ : ∃ cq, valueToRat f.control_sum = some cq := by
            have hmem : Record.footer f ∈ records := hf ▸ List.getLast_mem hne
            have := hwf _ hmem
            obtain ⟨fid, tc, cs⟩ := f
            cases cs with
            | vrat q => exact ⟨q, rfl⟩
            | vstr s => simp [wfRecord] at this
            | vint n => simp [wfRecord] at this
          rw [hcq]
          exact ⟨_, rfl⟩
        · rw [if_neg c4]
          exact ⟨_, rfl⟩
      · rw [if_neg c3]
        exact ⟨_, rfl⟩
    · rw [if_neg c2]
      exact ⟨_, rfl⟩
  · rw [if_neg c1]
    exact ⟨_, rfl⟩

/-- Counterexample to C3 as stated: on the empty record sequence the
validator does not return a verdict — the `records[0]` access raises
`IndexError` (modelled by `none`). -/
theorem spec_c3_cex : validate_file_structure ([] : List Record) = none := rfl

/-- Witness for C3 at a length-1 sequence: a lone Header gets the
"last record is not a Footer" verdict as data. -/
theorem spec_c3_witness : ∃ v, validate_file_structure [Record.header exHeader] = some v :=
  spec_c3 [Record.header exHeader] (by simp) (by decide)

/-- Dropping all but the last element of a list leaves exactly its last
element. -/
theorem drop_len_sub_one {α : Type} {l : List α} {rl : α} (h : l.getLast? = some rl) :
    l.drop (l.length - 1) = [rl] := by
  induction l with
  | nil => simp at h
  | cons a l ih =>
    cases l with
    | nil =>
      simp only [List.getLast?_singleton, Option.some.injEq] at h
      subst h
      rfl
    | cons b l2 =>
      rw [List.getLast?_cons_cons] at h
      have hrec := ih h
      have hlen : (a :: b :: l2).length - 1 = ((b :: l2).length - 1) + 1 := by simp
      rw [hlen, List.drop_succ_cons, hrec]

/-- C4 (amended): On every record sequence with at least one element,
`add_transaction` inserts the new Transaction immediately before the last
element (Footer or not), leaves every pre-existing record — including the
Footer's `total_counter` and `control_sum` — unchanged, and persists; on a
1-Header/2-Transaction/1-Footer sequence the persisted result has 5
elements with the new Transaction at index 3. -/
theorem spec_c4 (records : List Record) (rl : Record) (counter amount currency : Value)
    (h : records.getLast? = some rl) :
    add_transaction records counter amount currency =
      some (records.dropLast ++
        [Record.transaction { field_id := .vstr TRANSACTION_FIELD_ID, counter := counter
                            , amount := amount, currency := currency }, rl]) := by
  unfold add_transaction insertBeforeLast
  rw [← List.dropLast_eq_take, drop_len_sub_one h]

/-- Counterexample to C4 as stated: inserting into the 4-element
1-Header/2-Transaction/1-Footer sequence persists a 5-element sequence —
the new Transaction sits at index 3, so the claimed "4 elements with the
new Transaction at index 2" is false. -/
theorem spec_c4_cex :
    add_transaction seqHTTF (Value.vint 3) (Value.vrat 45) (Value.vstr (chars "USD")) =
      some [Record.header exHeader, Record.transaction (exTransaction 1 10),
            Record.transaction (exTransaction 2 10),
            Record.transaction { field_id := .vstr TRANSACTION_FIELD_ID
                               , counter := .vint 3, amount := .vrat 45
                               , currency := .vstr (chars "USD") },
            Record.footer (exFooter 2 20)] ∧
    (add_transaction seqHTTF (Value.vint 3) (Value.vrat 45)
        (Value.vstr (chars "USD"))).map List.length ≠ some 4 :=
  ⟨rfl, by intro h; exact absurd (Option.some.injEq _ _ ▸ h) (by decide)⟩

/-- Witness for C4 at the 1-Header/2-Transaction/1-Footer sequence. -/
theorem spec_c4_witness :
    add_transaction seqHTTF (Value.vint 3) (Value.vrat 45) (Value.vstr (chars "USD")) =
      some (seqHTTF.dropLast ++
        [Record.transaction { field_id := .vstr TRANSACTION_FIELD_ID
                            , counter := .vint 3, amount := .vrat 45
                            , currency := .vstr (chars "USD") },
         Record.footer (exFooter 2 20)]) :=
  spec_c4 seqHTTF (Record.footer (exFooter 2 20)) _ _ _ rfl

/-- C10: On the empty record sequence `add_transaction` does not fail: the
new Transaction is inserted at index 0 and persisted as the sole element,
even though no last element exists to insert before. -/
theorem spec_c10 (counter amount currency : Value) :
    add_transaction [] counter amount currency =
      some [Record.transaction { field_id := .vstr TRANSACTION_FIELD_ID
                               , counter := counter, amount := amount
                               , currency := currency }] := rfl

theorem setAttrV_kind (r : Record) (f : Str) (v : Value) :
    kindOf (setAttrV r f v) = kindOf r := by
  cases r <;> rfl

theorem getAttr_setAttr_same (r : Record) (f : Str) (v : Value)
    (h : hasAttrV r f = true) : getAttrV (setAttrV r f v) f = some v := by
  cases r with
  | header hh =>
    simp only [hasAttrV, setAttrV, getAttrV] at *
    unfold getAttrH setAttrH at *
    split_ifs at * <;> simp_all
  | transaction tt =>
    simp only [hasAttrV, setAttrV, getAttrV] at *
    unfold getAttrT setAttrT at *
    split_ifs at * <;> simp_all
  | footer ff =>
    simp only [hasAttrV, setAttrV, getAttrV] at *
    unfold getAttrF setAttrF at *
    split_ifs at * <;> simp_all

theorem getH_setH_other (h : Header) (f g : Str) (v : Value) (hg : g ≠ f) :
    getAttrH (setAttrH h f v) g = getAttrH h g := by
  unfold setAttrH
  by_cases h1 : f = chars "field_id"
  · subst h1
    rw [if_pos rfl]
    unfold getAttrH
    split_ifs <;> simp_all
  · rw [if_neg h1]
    by_cases h2 : f = chars "name"
    · subst h2
      rw [if_pos rfl]
      unfold getAttrH
      split_ifs <;> simp_all
    · rw [if_neg h2]
      by_cases h3 : f = chars "surname"
      · subst h3
        rw [if_pos rfl]
        unfold getAttrH
        split_ifs <;> simp_all
      · rw [if_neg h3]
        by_cases h4 : f = chars "patronymic"
        · subst h4
          rw [if_pos rfl]
          unfold getAttrH
          split_ifs <;> simp_all
        · rw [if_neg h4]
          by_cases h5 : f = chars "address"
          · subst h5
            rw [if_pos rfl]
            unfold getAttrH
            split_ifs <;> simp_all
          · rw [if_neg h5]

theorem getT_setT_other (t : Transaction) (f g : Str) (v : Value) (hg : g ≠ f) :
    getAttrT (setAttrT t f v) g = getAttrT t g := by
  unfold setAttrT
  by_cases h1 : f = chars "field_id"
  · subst h1
    rw [if_pos rfl]
    unfold getAttrT
    split_ifs <;> simp_all
  · rw [if_neg h1]
    by_cases h2 : f = chars "counter"
    · subst h2
      rw [if_pos rfl]
      unfold getAttrT
      split_ifs <;> simp_all
    · rw [if_neg h2]
      by_cases h3 : f = chars "amount"
      · subst h3
        rw [if_pos rfl]
        unfold getAttrT
        split_ifs <;> simp_all
      · rw [if_neg h3]
        by_cases h4 : f = chars "currency"
        · subst h4
          rw [if_pos rfl]
          unfold getAttrT
          split_ifs <;> simp_all
        · rw [if_neg h4]

theorem getF_setF_other (ft : Footer) (f g : Str) (v : Value) (hg : g ≠ f) :
    getAttrF (setAttrF ft f v) g = getAttrF ft g := by
  unfold setAttrF
  by_cases h1 : f = chars "field_id"
  · subst h1
    rw [if_pos rfl]
    unfold getAttrF
    split_ifs <;> simp_all
  · rw [if_neg h1]
    by_cases h2 : f = chars "total_counter"
    · subst h2
      rw [if_pos rfl]
      unfold getAttrF
      split_ifs <;> simp_all
    · rw [if_neg h2]
      by_cases h3 : f = chars "control_sum"
      · subst h3
        rw [if_pos rfl]
        unfold getAttrF
        split_ifs <;> simp_all
      · rw [if_neg h3]

theorem getAttr_setAttr_other (r : Record) (f g : Str) (v : Value) (hg : g ≠ f) :
    getAttrV (setAttrV r f v) g = getAttrV r g := by
  cases r with
  | header hh => exact getH_setH_other hh f g v hg
  | transaction tt => exact getT_setT_other tt f g v hg
  | footer ff => exact getF_setF_other ff f g v hg

/-- Record-wise encodability gives a successful whole-sequence encode. -/
theorem mapM_format_some {l : List Record}
    (h : ∀ r ∈ l, (format_record r).isSome = true) :
    ∃ ys : List Str, l.mapM format_record = some ys := by
  induction l with
  | nil => exact ⟨[], rfl⟩
  | cons r rs ih =>
    obtain ⟨y, hy⟩ := Option.isSome_iff_exists.mp (h r (List.mem_cons_self r rs))
    obtain ⟨ys, hys⟩ := ih (fun x hx => h x (List.mem_cons_of_mem _ hx))
    refine ⟨y :: ys, ?_⟩
    rw [List.mapM_cons, hy, hys]
    rfl

/-- When every record of the sequence encodes, the write completes and the
whole sequence is persisted. -/
theorem write_file_some {l : List Record}
    (h : ∀ r ∈ l, (format_record r).isSome = true) : ∃ s, write_file l = some s := by
  obtain ⟨ys, hys⟩ := mapM_format_some h
  unfold write_file
  rw [hys]
  exact ⟨_, rfl⟩

/-- C5 (amended): `change_field_value` hands the store write a sequence of
the same length in which every record of the selected kind that has the
field carries the new value in that field, with its kind and every other
field unchanged, and every other record is exactly the original; the
write persists that entire rewritten sequence whenever every rewritten
record still encodes (in particular for a string assigned to a text field
of decoded records). -/
theorem spec_c5 (records : List Record) (k : RecKind) (f : Str) (v : Value) :
    ∃ l, change_field_value records k f v = some l ∧
      l.length = records.length ∧
      (∀ (i : Nat) (r r' : Record), records.get? i = some r → l.get? i = some r' →
        ((kindOf r = k ∧ hasAttrV r f = true) →
          kindOf r' = kindOf r ∧ getAttrV r' f = some v ∧
          (∀ g, g ≠ f → getAttrV r' g = getAttrV r g)) ∧
        (¬(kindOf r = k ∧ hasAttrV r f = true) → r' = r)) ∧
      ((∀ r ∈ l, (format_record r).isSome = true) → ∃ s, write_file l = some s) := by
  refine ⟨records.map (fun r => if kindOf r = k ∧ hasAttrV r f then setAttrV r f v else r),
    rfl, by simp, ?_, fun henc => write_file_some henc⟩
  intro i r r' hr hr'
  rw [List.get?_eq_getElem?] at hr hr'
  rw [List.getElem?_map, hr] at hr'
  simp only [Option.map_some', Option.some.injEq] at hr'
  constructor
  · intro hcond
    rw [if_pos hcond] at hr'
    subst hr'
    exact ⟨setAttrV_kind r f v, getAttr_setAttr_same r f v hcond.2,
      fun g hg => getAttr_setAttr_other r f g v hg⟩
  · intro hcond
    rw [if_neg hcond] at hr'
    exact hr'.symm

/-- Counterexample to C5 as stated: assigning the non-numeric string
`"EUR"` into the `amount` field of a Transaction rewrites the in-memory
sequence, but the store write fails while encoding the rewritten record —
`int("EUR" * 100)` raises — after the file was already truncated, so the
entire rewritten sequence is not persisted. -/
theorem spec_c5_cex :
    change_field_value seqOneTrans RecKind.transaction (chars "amount")
        (Value.vstr (chars "EUR")) =
      some [Record.transaction { field_id := .vstr TRANSACTION_FIELD_ID
                               , counter := .vint 1, amount := .vstr (chars "EUR")
                               , currency := .vstr (chars "USD") }] ∧
    write_file [Record.transaction { field_id := .vstr TRANSACTION_FIELD_ID
                                   , counter := .vint 1, amount := .vstr (chars "EUR")
                                   , currency := .vstr (chars "USD") }] = none :=
  ⟨rfl, rfl⟩

/-- Witness for C5 at a sequence with two Header records and the field
`surname` set to `"Smith"`. -/
theorem spec_c5_witness :
    ∃ l, change_field_value seqTwoHeaders RecKind.header (chars "surname")
        (Value.vstr (chars "Smith")) = some l ∧
      l.length = seqTwoHeaders.length ∧
      (∀ (i : Nat) (r r' : Record), seqTwoHeaders.get? i = some r → l.get? i = some r' →
        ((kindOf r = RecKind.header ∧ hasAttrV r (chars "surname") = true) →
          kindOf r' = kindOf r ∧ getAttrV r' (chars "surname") = some (Value.vstr (chars "Smith")) ∧
          (∀ g, g ≠ chars "surname" → getAttrV r' g = getAttrV r g)) ∧
        (¬(kindOf r = RecKind.header ∧ hasAttrV r (chars "surname") = true) → r' = r)) ∧
      ((∀ r ∈ l, (format_record r).isSome = true) → ∃ s, write_file l = some s) :=
  spec_c5 seqTwoHeaders RecKind.header (chars "surname") (Value.vstr (chars "Smith"))

/-- C6 (amended): When no record of the requested kind with the requested
field exists, `change_field_value` does not report anything: it rewrites
the persisted store with the record sequence unchanged. -/
theorem spec_c6 (records : List Record) (k : RecKind) (f : Str) (v : Value)
    (h : ∀ r ∈ records, ¬(kindOf r = k ∧ hasAttrV r f = true)) :
    change_field_value records k f v = some records := by
  unfold change_field_value
  congr 1
  conv_rhs => rw [← List.map_id records]
  refine List.map_congr_left ?_
  intro r hr
  rw [if_neg (h r hr)]
  rfl

/-- Counterexample to C6 as stated: requesting the `currency` field of
Transaction records on a sequence with no Transactions still rewrites the
persisted store (the operation performs its write; nothing is reported and
the write is not suppressed). -/
theorem spec_c6_cex :
    (change_field_value seqNoTrans RecKind.transaction (chars "currency")
        (Value.vstr (chars "EUR"))).isSome = true := rfl

/-- Witness for C6: on the Transaction-free sequence the store is
rewritten with exactly the original records. -/
theorem spec_c6_witness :
    change_field_value seqNoTrans RecKind.transaction (chars "currency")
        (Value.vstr (chars "EUR")) = some seqNoTrans :=
  spec_c6 seqNoTrans RecKind.transaction (chars "currency") (Value.vstr (chars "EUR"))
    (by decide)

/-- C7: `get_field_value` returns the named field of the first record of
the selected kind in sequence order, and reports not-found (as data, not
an exception) when no record of the kind exists or the kind lacks the
field; in particular it returns not-found for `(Transaction, "currency")`
on a sequence without Transactions. -/
theorem spec_c7 :
    (∀ (records : List Record) (k : RecKind) (f : Str),
      get_field_value records k f =
        (records.find? (fun r => kindOf r = k)).bind (fun r => getAttrV r f)) ∧
    (∀ records : List Record,
      (∀ r ∈ records, kindOf r ≠ RecKind.transaction) →
      get_field_value records RecKind.transaction (chars "currency") = none) := by
  have main : ∀ (records : List Record) (k : RecKind) (f : Str),
      get_field_value records k f =
        (records.find? (fun r => kindOf r = k)).bind (fun r => getAttrV r f) := by
    intro records k f
    induction records with
    | nil => rfl
    | cons r rs ih =>
      by_cases h : kindOf r = k
      · rw [show get_field_value (r :: rs) k f =
            (if kindOf r = k then getAttrV r f else get_field_value rs k f) from rfl,
          if_pos h, List.find?_cons_of_pos _ (by simp [h])]
        rfl
      · rw [show get_field_value (r :: rs) k f =
            (if kindOf r = k then getAttrV r f else get_field_value rs k f) from rfl,
          if_neg h, List.find?_cons_of_neg _ (by simp [h]), ih]
  refine ⟨main, ?_⟩
  intro records h
  rw [main]
  have hf : records.find? (fun r => kindOf r = RecKind.transaction) = none := by
    rw [List.find?_eq_none]
    intro r hr
    simp [h r hr]
  rw [hf]
  rfl

/-- Witness for C7 on a sequence containing only a Header and a Footer. -/
theorem spec_c7_witness :
    get_field_value seqNoTrans RecKind.transaction (chars "currency") = none :=
  spec_c7.2 seqNoTrans (by decide)

/-- C8: Whole-file decode is lenient: a line whose 2-character tag is
unrecognized, or a Transaction-tagged line whose field validation fails
(non-12-digit amount, unparsable counter, or unknown currency, all of
which make `parse_transaction` return no record), contributes no record,
and decoding continues on the remaining lines exactly as if the line were
absent — so the output order of the surviving lines is preserved. -/
theorem spec_c8 (line : Str) (rest : List Str)
    (h : (pySlice 0 2 line ≠ HEADER_FIELD_ID ∧ pySlice 0 2 line ≠ TRANSACTION_FIELD_ID ∧
          pySlice 0 2 line ≠ FOOTER_FIELD_ID) ∨
        (pySlice 0 2 line = TRANSACTION_FIELD_ID ∧ parse_transaction line = none)) :
    read_file (line :: rest) = read_file rest := by
  rcases h with ⟨h1, h2, h3⟩ | ⟨h2, hp⟩
  · simp only [read_file]
    rw [if_neg h1, if_neg h2, if_neg h3]
  · simp only [read_file]
    have h1 : pySlice 0 2 line ≠ HEADER_FIELD_ID := by
      rw [h2]
      decide
    rw [if_neg h1, if_pos h2, hp]

/-- Witness for C8 at a Transaction line whose amount field strips to the
non-digit string `"00000001A00"`, followed by a decodable header line. -/
theorem spec_c8_witness : read_file [lineBadAmount, lineHeader] = read_file [lineHeader] :=
  spec_c8 lineBadAmount [lineHeader] (Or.inr ⟨rfl, rfl⟩)

/-- C9: Once checks (1)–(4) pass, the control-sum check compares the two
sides after rounding both to 2 decimal fraction digits: the verdict is
Valid exactly when `round2` of the computed sum equals `round2` of the
Footer's control sum. -/
theorem spec_c9 (records : List Record) (r0 : Record) (f : Footer)
    (amounts : List ℚ) (cs : ℚ)
    (h0 : records.head? = some r0) (h1 : isHeaderR r0 = true)
    (hl : records.getLast? = some (Record.footer f))
    (h3 : ((records.drop 1).dropLast.all isTransactionR) = true)
    (h4 : pyEqInt f.total_counter (records.drop 1).dropLast.length = true)
    (hM : (records.drop 1).dropLast.mapM amountOfR = some amounts)
    (hcs : valueToRat f.control_sum = some cs) :
    (validate_file_structure records = some Verdict.valid ↔
      round2 amounts.sum = round2 cs) := by
  unfold validate_file_structure
  rw [h0, hl]
  simp only [Option.bind]
  rw [if_pos h1, if_pos (show isFooterR (Record.footer f) = true from rfl), if_pos h3]
  simp only [footerOf, Option.bind]
  rw [if_pos h4, hM]
  simp only [Option.bind]
  rw [hcs]
  dsimp only
  constructor
  · intro hv
    by_contra hne
    rw [if_neg hne] at hv
    simp at hv
  · intro he
    rw [if_pos he]

/-- Witness for C9 at a valid 1-Header/1-Transaction/1-Footer sequence
with amount 20 and control sum 20. -/
theorem spec_c9_witness : validate_file_structure seqHTF = some Verdict.valid :=
  (spec_c9 seqHTF (Record.header exHeader) (exFooter 1 20) [20] 20
    rfl rfl rfl rfl rfl rfl rfl).mpr (by rw [List.sum_singleton])
